import Mathlib

/-!
Verification of the html2component compiler pipeline.

The definitions below are a shallow embedding of the repository's source:

* `src/packages/playground/vite.config.ts` — the attribute classifier
  (`compileAttribute`), the node compiler (`compileNode` together with the
  parent-threading `reduce` fold), root segregation (`prepareNodes`), and the
  code generator (`compileHtml`, `walkDeclared`, `compile`, `indent`,
  `nameof`).
* `src/unnamed/part_002` — the htmlparser2-based parser module
  (`normalizeAttributes`, node shapes, `walk`, `flat`, `reduce`).
* `src/unnamed/part_001` — the older string-building `compile`.

JavaScript strings are modelled through their character lists (`String.data`),
and the handful of JS string primitives the source uses (`startsWith`, `trim`,
`split`, `indexOf`, `JSON.stringify`) are defined below on that
representation.  The code generator appends output line by line (every `+=`
in the source ends the fragment with `"\n"` or is itself processed per line
by `indent`), so emission is modelled as a `List String` of output lines,
rendered to the final string by suffixing `"\n"` to every line.
-/

namespace H2C

/-- JS `String.prototype.startsWith`, on character lists. -/
def jsStartsWith (s pre : String) : Bool :=
  pre.data.isPrefixOf s.data

/-- The character class trimmed by JS `String.prototype.trim`
(ECMAScript WhiteSpace and LineTerminator characters). -/
def isJsWs (c : Char) : Bool :=
  c == ' ' || c == '\t' || c == '\n' || c == '\r' || c == '\x0b' || c == '\x0c' ||
  c == ' ' || c == '﻿' || c == ' ' || c == ' '

/-- JS `String.prototype.trim`. -/
def jsTrim (s : String) : String :=
  ⟨((s.data.dropWhile isJsWs).reverse.dropWhile isJsWs).reverse⟩

/-- Split a character list at every separator character
(JS `String.prototype.split` semantics: `"on:".split(":") = ["on", ""]`). -/
def splitChars (sep : Char → Bool) : List Char → List (List Char)
  | [] => [[]]
  | c :: cs =>
    match splitChars sep cs with
    | [] => if sep c then [[], []] else [[c]]
    | h :: t => if sep c then [] :: h :: t else (c :: h) :: t

/-- JS `String.prototype.split` with a character-class separator. -/
def jsSplit (s : String) (sep : Char → Bool) : List String :=
  (splitChars sep s.data).map (fun l => ⟨l⟩)

/-- JS `String.prototype.indexOf` for a single character (`-1` if absent). -/
def jsIndexOf (s : String) (c : Char) : Int :=
  match s.data.findIdx? (· == c) with
  | some i => (i : Int)
  | none => -1

/-- Modelled from the spec: `trimAny` comes from the repository's `utils`
module, which is not present under `src/`; per §4.3 the classifier uses it to
"strip matching `\x7b`/`\x7d`" characters, i.e. it strips any of the given
characters from both ends of the string. -/
def trimAny (s : String) (cs : List Char) : String :=
  ⟨((s.data.dropWhile (cs.contains ·)).reverse.dropWhile (cs.contains ·)).reverse⟩

/-- One hexadecimal digit. -/
def hexDigit (n : Nat) : Char :=
  if n < 10 then Char.ofNat ('0'.toNat + n) else Char.ofNat ('a'.toNat + (n - 10))

/-- JSON escaping of one character, as JS `JSON.stringify` performs on the
characters of a string. -/
def jsonEscapeChar (c : Char) : List Char :=
  if c = '"' then ['\\', '"']
  else if c = '\\' then ['\\', '\\']
  else if c = '\n' then ['\\', 'n']
  else if c = '\r' then ['\\', 'r']
  else if c = '\t' then ['\\', 't']
  else if c = '\x08' then ['\\', 'b']
  else if c = '\x0c' then ['\\', 'f']
  else if c.toNat < 0x20 then
    ['\\', 'u', '0', '0', hexDigit (c.toNat / 16), hexDigit (c.toNat % 16)]
  else [c]

/-- JS `JSON.stringify` applied to a string value. -/
def jsonStringify (s : String) : String :=
  ⟨'"' :: (s.data.flatMap jsonEscapeChar) ++ ['"']⟩

/-- The `NodeAttribute` of the parser module: one raw `(name, value)` pair. -/
structure NodeAttribute where
  name : String
  value : String
deriving DecidableEq, Repr

/-- The `VariableAttribute` of vite.config.ts (`type: 'variable'`); the source
field `variable` is a Lean keyword and is rendered `var`. -/
structure VariableAttribute where
  name : String
  var : String
deriving DecidableEq, Repr

/-- The `EventAttribute` of vite.config.ts (`type: 'event'`). -/
structure EventAttribute where
  eventName : String
  modifiers : List String
  variableName : String
deriving DecidableEq, Repr

/-- The `GenericAttribute` of vite.config.ts (`type: 'attribute'`). -/
structure GenericAttribute where
  name : String
  value : String
deriving DecidableEq, Repr

/-- The `DeclaredAttribute`: the tagged union of the four directive kinds. -/
inductive DeclaredAttribute : Type where
  | varAttr (a : VariableAttribute)
  | refAttr (name : String)
  | eventAttr (a : EventAttribute)
  | genAttr (a : GenericAttribute)
deriving DecidableEq, Repr

/-- The `compileAttribute` of vite.config.ts: classify one raw attribute. -/
def compileAttribute (a : NodeAttribute) : Option DeclaredAttribute :=
  -- compound assignment, unused
  if jsStartsWith a.name "=" then none
  -- reference assignment
  else if a.name = "#ref" then
    some (.refAttr (let t := jsTrim a.value; if t = "" then "el" else t))
  -- variable shorthand
  else if jsStartsWith a.name "\x7b" then
    let variableName := jsTrim (trimAny a.name ['{', '}'])
    some (.varAttr ⟨variableName, variableName⟩)
  -- variable assignment
  else if jsStartsWith a.value "\x7b" then
    -- indicates an event
    if jsIndexOf a.name ':' > 0 then
      let eventParts := jsSplit a.name (· == ':')
      let onPart := eventParts.getD 0 ""
      let eventNameParts := jsSplit (eventParts.getD 1 "") (fun c => c == '|' || c == '.')
      if onPart = "on" then
        some (.eventAttr ⟨eventNameParts.getD 0 "", eventNameParts.drop 1,
          jsTrim (trimAny a.value ['{', '}'])⟩)
      else
        some (.varAttr ⟨a.name, jsTrim (trimAny a.value ['{', '}'])⟩)
    else
      some (.varAttr ⟨a.name, jsTrim (trimAny a.value ['{', '}'])⟩)
  else
    some (.genAttr ⟨a.name, a.value⟩)

mutual
/-- The parser's `Node` type (src/unnamed/part_002, htmlparser2-based half):
a text node or a tag node.  The `parent` back-reference of the source is not
stored; the functions below thread the ancestor chain explicitly, which is
what the `parent` pointers of a well-formed parse tree denote. -/
inductive Node : Type where
  | text (refId : Nat) (textContent : String)
  | tag (refId : Nat) (tag : String) (attributes : List NodeAttribute)
      (children : NodeForest)
deriving DecidableEq, Repr

/-- A list of sibling `Node`s (the `Node[]` arrays of the source). -/
inductive NodeForest : Type where
  | nil
  | cons (head : Node) (tail : NodeForest)
deriving DecidableEq, Repr
end

/-- The `isSvgNode` (inner helper of `shouldRenderAsSvg` in vite.config.ts):
a node whose tag is exactly `svg`. -/
def isSvgNode : Node → Bool
  | .tag _ t _ _ => t == "svg"
  | .text _ _ => false

/-- The `hasSvgParent` of vite.config.ts: the recursion over the `parent` chain,
here over the explicit ancestor list (nearest ancestor first). -/
def hasSvgParent : List Node → Bool
  | [] => false
  | p :: anc => isSvgNode p || hasSvgParent anc

/-- The `shouldRenderAsSvg` of vite.config.ts. -/
def shouldRenderAsSvg (n : Node) (anc : List Node) : Bool :=
  isSvgNode n || hasSvgParent anc

mutual
/-- The `DeclaredNode` of vite.config.ts: a `TextElementNode` or an
`ElementNode`.  The source's string `type` field (`'text' | 'svg' |
'element'`) is carried by the constructor together with the `isSvg` flag
(`isSvg = true` ↔ `type === 'svg'`).  The `parent` back-reference is not
stored; emission threads the parent's generated name explicitly. -/
inductive DeclaredNode : Type where
  | text (refId : Nat) (content : String)
  | elem (refId : Nat) (isSvg : Bool) (tag : String) (refTag : Option String)
      (events : List EventAttribute) (variableAttributes : List VariableAttribute)
      (attributes : List GenericAttribute) (children : DeclaredForest)
deriving DecidableEq, Repr

/-- A list of sibling `DeclaredNode`s. -/
inductive DeclaredForest : Type where
  | nil
  | cons (head : DeclaredNode) (tail : DeclaredForest)
deriving DecidableEq, Repr
end

/-- The `attrs.find((attr): attr is RefAttribute => attr.type === 'ref')?.name ||
undefined` in `compileNode`: the first ref directive's name, with an empty
name degrading to `undefined` (JS `||`). -/
def refTagOf (das : List DeclaredAttribute) : Option String :=
  match das.find? (fun a => match a with | .refAttr _ => true | _ => false) with
  | some (.refAttr n) => if n = "" then none else some n
  | _ => none

/-- The `attrs.filter((attr): attr is EventAttribute => attr.type === 'event')`. -/
def eventsOf (das : List DeclaredAttribute) : List EventAttribute :=
  das.filterMap (fun a => match a with | .eventAttr e => some e | _ => none)

/-- The `attrs.filter((attr): attr is VariableAttribute => attr.type === 'variable')`. -/
def variablesOf (das : List DeclaredAttribute) : List VariableAttribute :=
  das.filterMap (fun a => match a with | .varAttr v => some v | _ => none)

/-- The `attrs.filter((attr): attr is GenericAttribute => attr.type === 'attribute')`. -/
def genericsOf (das : List DeclaredAttribute) : List GenericAttribute :=
  das.filterMap (fun a => match a with | .genAttr g => some g | _ => none)

mutual
/-- The `compileNode` of vite.config.ts combined with the parent-threading
`reduce` fold of `compile`: build the declared node for `n`, whose raw
ancestor chain (nearest first) is `anc`, and recursively its children —
exactly what `reduce(parsedNodes, ...)` plus `parent?.children.push(compiled)`
builds.  `decode` is the external `html-entities` decoder (out of scope per
the spec, passed as a parameter). -/
def declareNode (decode : String → String) (anc : List Node) : Node → DeclaredNode
  | .text rid s => .text rid (decode s)
  | .tag rid t attrs cs =>
    let das := (attrs.map compileAttribute).filterMap id
    .elem rid (shouldRenderAsSvg (.tag rid t attrs cs) anc) t (refTagOf das)
      (eventsOf das) (variablesOf das) (genericsOf das)
      (declareForest decode (.tag rid t attrs cs :: anc) cs)

/-- The `declareNode` mapped over a sibling list. -/
def declareForest (decode : String → String) (anc : List Node) :
    NodeForest → DeclaredForest
  | .nil => .nil
  | .cons n ns => .cons (declareNode decode anc n) (declareForest decode anc ns)
end

/-- The `nameof` of vite.config.ts: the generated variable name of a node. -/
def nameof (d : DeclaredNode) : String :=
  match d with
  | .text rid _ => "el" ++ toString rid
  | .elem rid _ _ refTag _ _ _ _ =>
    match refTag with
    | some n => if n = "" then "el" ++ toString rid else n
    | none => "el" ++ toString rid

/-- The `children` field (empty for text nodes). -/
def childrenOf : DeclaredNode → DeclaredForest
  | .text _ _ => .nil
  | .elem _ _ _ _ _ _ _ cs => cs

/-- The creation statement of `compileHtml`: `createTextNode` for text,
`createElementNS` with the SVG namespace for `type === 'svg'`, plain
`createElement` otherwise. -/
def creationLine (d : DeclaredNode) : String :=
  match d with
  | .text _ content =>
    "const " ++ nameof d ++ " = document.createTextNode(" ++ jsonStringify content ++ ");"
  | .elem _ isSvg t _ _ _ _ _ =>
    if isSvg then
      "const " ++ nameof d ++ " = document.createElementNS(\"http://www.w3.org/2000/svg\", \""
        ++ t ++ "\");"
    else
      "const " ++ nameof d ++ " = document.createElement(\"" ++ t ++ "\");"

/-- One plain-attribute statement of `compileHtml`'s attribute loop. -/
def attrLine (elName : String) (a : GenericAttribute) : String :=
  if a.name = "width" ∨ a.name = "height" then
    elName ++ "." ++ a.name ++ " = " ++ jsonStringify a.value ++ ";"
  else if a.name = "class" then
    elName ++ ".className = " ++ jsonStringify a.value ++ ";"
  else if a.name = "style" then
    elName ++ ".style.cssText = " ++ jsonStringify a.value ++ ";"
  else
    elName ++ ".setAttribute(" ++ jsonStringify a.name ++ ", " ++ jsonStringify a.value ++ ");"

/-- The tree-assembly statement `` `${nameof(node.parent)}.appendChild(${nameof(node)});` ``. -/
def appendLine (parentName childName : String) : String :=
  parentName ++ ".appendChild(" ++ childName ++ ");"

/-- The `compileHtml` of vite.config.ts, as the list of lines the source
concatenates (each `code +=` fragment ends in `"\n"`; the final bare
`code += "\n"` is the trailing `""` line).  `parentName` is
`nameof(node.parent)` when the node has a declared parent. -/
def compileHtml (parentName : Option String) (d : DeclaredNode) : List String :=
  (creationLine d ::
    (match d with
     | .text _ _ => []
     | .elem _ _ _ _ _ _ ats _ => ats.map (attrLine (nameof d))))
  ++ (match parentName with
      | some p => [appendLine p (nameof d)]
      | none => [])
  ++ [""]

/-- One line of `indent` in vite.config.ts: `part = part.trim(); if (part)
code += "  " + part; code += "\n"`. -/
def indentLine (s : String) : String :=
  let p := jsTrim s
  if p = "" then "" else "  " ++ p

/-- Trimming (`.trim()`) applied to a rendered chunk of statement lines: every statement
line is nonempty with no edge whitespace, so trimming the joined string drops
exactly the trailing blank lines. -/
def dropTrailingBlanks : List String → List String
  | [] => []
  | s :: ss =>
    match dropTrailingBlanks ss with
    | [] => if s = "" then [] else [s]
    | r => s :: r

/-- One step of the emission walk of `compile`:
`compiledCode += indent(compileHtml(node).trim()); compiledCode += "\n"`. -/
def emitNode (parentName : Option String) (d : DeclaredNode) : List String :=
  (dropTrailingBlanks (compileHtml parentName d)).map indentLine ++ [""]

mutual
/-- The `walkDeclared` specialised to the emission visitor of `compile`: emit the
node, then (for non-text nodes) its children, for whom it is the parent. -/
def emitTree (parentName : Option String) : DeclaredNode → List String
  | .text rid c => emitNode parentName (.text rid c)
  | .elem rid isSvg t rt evs vas ats cs =>
    emitNode parentName (.elem rid isSvg t rt evs vas ats cs)
    ++ emitForest (some (nameof (.elem rid isSvg t rt evs vas ats cs))) cs

/-- The `emitTree` over a sibling list. -/
def emitForest (parentName : Option String) : DeclaredForest → List String
  | .nil => []
  | .cons d ds => emitTree parentName d ++ emitForest parentName ds
end

mutual
/-- The event collection of the same walk: `events.push({ node, event })`
for each event directive of each visited node, paired with the node's
generated name. -/
def eventsTree (d : DeclaredNode) : List (String × EventAttribute) :=
  match d with
  | .text _ _ => []
  | .elem _ _ _ _ evs _ _ cs => evs.map (fun e => (nameof d, e)) ++ eventsForest cs

/-- The `eventsTree` over a sibling list. -/
def eventsForest : DeclaredForest → List (String × EventAttribute)
  | .nil => []
  | .cons d ds => eventsTree d ++ eventsForest ds
end

mutual
/-- The `walkDeclared(scripts, ...)`: splice the trimmed content of every text
node found below the segregated scripts (`compiledCode += node.content.trim();
compiledCode += "\n"; compiledCode += "\n"`). -/
def spliceTree (d : DeclaredNode) : List String :=
  match d with
  | .text _ content => [jsTrim content, ""]
  | .elem _ _ _ _ _ _ _ cs => spliceForest cs

/-- The `spliceTree` over a sibling list. -/
def spliceForest : DeclaredForest → List String
  | .nil => []
  | .cons d ds => spliceTree d ++ spliceForest ds
end

/-- The four buckets produced by `prepareNodes`. -/
structure Prepared where
  rootNodes : DeclaredForest
  templates : DeclaredForest
  scripts : DeclaredForest
  styles : DeclaredForest
deriving DecidableEq, Repr

/-- The `prepareNodes` of vite.config.ts over the declared root list (the
`reduce` fold of `compile` returns exactly the root-level declared nodes, so
the source's `if (node.parent) continue` filter is vacuous here): a root of
`type === 'element'` (a non-SVG element) tagged `template`/`script`/`style`
goes to its bucket, every other root to `rootNodes`, in order. -/
def prepareStep (d : DeclaredNode) (r : Prepared) : Prepared :=
  match d with
  | .elem _ isSvg t _ _ _ _ _ =>
    if isSvg = false ∧ t = "template" then { r with templates := .cons d r.templates }
    else if isSvg = false ∧ t = "script" then { r with scripts := .cons d r.scripts }
    else if isSvg = false ∧ t = "style" then { r with styles := .cons d r.styles }
    else { r with rootNodes := .cons d r.rootNodes }
  | .text _ _ => { r with rootNodes := .cons d r.rootNodes }

/-- The bucket classification of `prepareNodes`, folded over the root list
(`prepareStep` handles one root, preserving document order). -/
def prepareNodes : DeclaredForest → Prepared
  | .nil => ⟨.nil, .nil, .nil, .nil⟩
  | .cons d ds => prepareStep d (prepareNodes ds)

/-- One event-listener registration statement of `compile`:
`` `  ${nameof(node)}.addEventListener(${JSON.stringify(event.eventName)}, ${event.variableName})` ``. -/
def eventLine (pr : String × EventAttribute) : String :=
  "  " ++ pr.1 ++ ".addEventListener(" ++ jsonStringify pr.2.eventName ++ ", "
    ++ pr.2.variableName ++ ")"

/-- The `compile` of vite.config.ts (the `Node[]` overload), as the list of
output lines: header, the emission walk over the non-segregated roots, the
script splice walk, the collected event registrations, and the closing
brace. -/
def compileLines (decode : String → String) (ns : NodeForest) : List String :=
  let p := prepareNodes (declareForest decode [] ns)
  ["export function compile() \x7b"]
  ++ emitForest none p.rootNodes
  ++ spliceForest p.scripts
  ++ (eventsForest p.rootNodes).map eventLine
  ++ ["\x7d"]

/-- Render a line list to the final output string (each line of the source's
accumulated `compiledCode` ends with `"\n"`). -/
def render (ls : List String) : String :=
  String.join (ls.map (· ++ "\n"))

/-- The `compile` of vite.config.ts: the generated source string. -/
def compile (decode : String → String) (ns : NodeForest) : String :=
  render (compileLines decode ns)

/-!
The older string-building compiler of `src/unnamed/part_001`.  It operates on
the posthtml-based node shape of the first half of `src/unnamed/part_002`,
which is structurally the same `refId`/`tag`/attribute-list/children tree, so
the `Node` type above is reused.  The function body after
`const nodes = parse(html)` is embedded as a function of the parsed forest.
-/
namespace P1

/-- The `refId` field of either node kind. -/
def refIdOf : Node → Nat
  | .text r _ => r
  | .tag r _ _ _ => r

/-- The result of part_001's reverse removal loop over the top-level nodes:
the surviving roots (in order) and the `templates`/`scripts`/`styles` buckets
(the descending loop pushes later document nodes first, so buckets hold
reverse document order). -/
structure Spliced where
  remaining : NodeForest
  templates : List Node
  scripts : List Node
  styles : List Node

/-- The `for (let i = nodes.length - 1; i > -1; i--)` splice loop of
part_001's `compile`. -/
def splice : NodeForest → Spliced
  | .nil => ⟨.nil, [], [], []⟩
  | .cons n ns =>
    let r := splice ns
    match n with
    | .tag rid t attrs cs =>
      if t = "template" then { r with templates := r.templates ++ [.tag rid t attrs cs] }
      else if t = "script" then { r with scripts := r.scripts ++ [.tag rid t attrs cs] }
      else if t = "style" then { r with styles := r.styles ++ [.tag rid t attrs cs] }
      else { r with remaining := .cons (.tag rid t attrs cs) r.remaining }
    | .text rid s => { r with remaining := .cons (.text rid s) r.remaining }

/-- The name chosen for a node by part_001's naming walk: the raw value of a
`#ref` attribute (`""` degrading to `el`), else `el<refId>`. -/
def nodeName : Node → String
  | .text rid _ => "el" ++ toString rid
  | .tag rid _ attrs _ =>
    match attrs.find? (fun a => a.name = "#ref") with
    | some a => if a.value = "" then "el" else a.value
    | none => "el" ++ toString rid

/-- The `nodeRefToVariable.set` on the association-list model of the `Map`. -/
def setName (m : List (Nat × String)) (k : Nat) (v : String) : List (Nat × String) :=
  if (m.lookup k).isSome then m.map (fun p => if p.1 = k then (k, v) else p)
  else m ++ [(k, v)]

/-- One visit of the naming walk: skip when the map already holds a truthy
(non-empty) name for this `refId` (`if (nodeRefToVariable.get(...)) return`),
else record the node's name. -/
def visitName (m : List (Nat × String)) (n : Node) : List (Nat × String) :=
  match m.lookup (refIdOf n) with
  | some s => if s = "" then setName m (refIdOf n) (nodeName n) else m
  | none => setName m (refIdOf n) (nodeName n)

mutual
/-- The naming walk (`walk(nodes, ...)`) over one node. -/
def buildMapT (m : List (Nat × String)) : Node → List (Nat × String)
  | .text rid s => visitName m (.text rid s)
  | .tag rid t attrs cs => buildMapF (visitName m (.tag rid t attrs cs)) cs

/-- The naming walk over a sibling list. -/
def buildMapF (m : List (Nat × String)) : NodeForest → List (Nat × String)
  | .nil => m
  | .cons n ns => buildMapF (buildMapT m n) ns
end

/-- The `getVariableName`: the recorded name, a falsy (empty) or missing entry
falling back to `el<refId>`. -/
def getVariableName (m : List (Nat × String)) (n : Node) : String :=
  match m.lookup (refIdOf n) with
  | some s => if s = "" then "el" ++ toString (refIdOf n) else s
  | none => "el" ++ toString (refIdOf n)

mutual
/-- The `flat(nodes)` of the parser, enriched with each node's ancestor chain
(nearest first), which the source reads off the `parent` pointers: a pre-order
walk collecting each not-yet-seen `refId` once.  The state is the seen-id set
and the collected list. -/
def flatT (anc : List Node) (st : List Nat × List (Node × List Node)) :
    Node → List Nat × List (Node × List Node)
  | .text rid s =>
    if st.1.contains rid then st else (st.1 ++ [rid], st.2 ++ [(.text rid s, anc)])
  | .tag rid t attrs cs =>
    let st1 := if st.1.contains rid then st
      else (st.1 ++ [rid], st.2 ++ [(.tag rid t attrs cs, anc)])
    flatF (.tag rid t attrs cs :: anc) st1 cs

/-- The `flatT` over a sibling list. -/
def flatF (anc : List Node) (st : List Nat × List (Node × List Node)) :
    NodeForest → List Nat × List (Node × List Node)
  | .nil => st
  | .cons n ns => flatF anc (flatT anc st n) ns
end

/-- The mutable state of part_001's emission loop. -/
structure Acc where
  code : String
  variableExport : List (Node × String × String)
  eventHandlers : List (Node × String × String)
  exportNodes : List Node

/-- One attribute of the emission loop's `for (const { name, value } of
node.attrs)` body (part_001 splits the event name on `|` only). -/
def attrStep (m : List (Nat × String)) (n : Node) (acc : Acc) (a : NodeAttribute) : Acc :=
  if jsStartsWith a.name "=" then acc
  else if jsStartsWith a.name "\x7b" then
    let v := jsTrim (trimAny a.name ['{', '}'])
    { acc with variableExport := acc.variableExport ++ [(n, v, v)] }
  else if jsStartsWith a.value "\x7b" then
    if jsIndexOf a.name ':' > 0 then
      let eventParts := jsSplit a.name (· == ':')
      let onPart := eventParts.getD 0 ""
      let eventNameParts := jsSplit (eventParts.getD 1 "") (· == '|')
      if onPart = "on" then
        { acc with eventHandlers := acc.eventHandlers ++
            [(n, eventNameParts.getD 0 "", jsTrim (trimAny a.value ['{', '}']))] }
      else acc
    else acc
  else
    { acc with code := acc.code ++ "  " ++ getVariableName m n ++ ".setAttribute("
        ++ jsonStringify a.name ++ ", " ++ jsonStringify a.value ++ ");\n" }

/-- One iteration of `for (const node of flat(nodes))`: creation statement,
plain-attribute statements, then either export collection (root or template
parent) or an `appendChild` statement, then a blank line. -/
def nodeStep (decode : String → String) (m : List (Nat × String))
    (templates : List Node) (acc : Acc) (item : Node × List Node) : Acc :=
  let n := item.1
  let anc := item.2
  let acc1 :=
    match n with
    | .text _ s =>
      { acc with code := acc.code ++ "  const " ++ getVariableName m n
          ++ " = document.createTextNode(" ++ jsonStringify (decode s) ++ ");\n" }
    | .tag _ t _ _ =>
      if shouldRenderAsSvg n anc then
        { acc with code := acc.code ++ "  const " ++ getVariableName m n
            ++ " = document.createElementNS(\"http://www.w3.org/2000/svg\", \"" ++ t ++ "\");\n" }
      else
        { acc with code := acc.code ++ "  const " ++ getVariableName m n
            ++ " = document.createElement(\"" ++ t ++ "\");\n" }
  let acc2 :=
    match n with
    | .tag _ _ attrs _ => attrs.foldl (attrStep m n) acc1
    | .text _ _ => acc1
  let acc3 :=
    match anc.head? with
    | none => { acc2 with exportNodes := acc2.exportNodes ++ [n] }
    | some p =>
      if templates.any (fun root => refIdOf p = refIdOf root) then
        { acc2 with exportNodes := acc2.exportNodes ++ [n] }
      else
        { acc2 with code := acc2.code ++ "  " ++ getVariableName m p ++ ".appendChild("
            ++ getVariableName m n ++ ");\n" }
  { acc3 with code := acc3.code ++ "\n" }

/-- The `compile` of `src/unnamed/part_001`, embedded as a function of the parsed
forest (the body after `const nodes = parse(html)`).  The script splice reads
`scripts[0]?.content[0].content` (a `scripts[0]` whose child list is empty
would throw in JS; that unreachable-for-parser-output case yields no splice
here). -/
def compile (decode : String → String) (ns : NodeForest) : String :=
  let s := splice ns
  let m := buildMapF [] s.remaining
  let items := (flatF [] ([], []) s.remaining).2
  let acc := items.foldl (nodeStep decode m s.templates) ⟨"export function compile() \x7b\n", [], [], []⟩
  -- lol?
  if acc.exportNodes = [] then ""
  else
    let script : Option String :=
      match s.scripts.head? with
      | some (.tag _ _ _ (.cons (.text _ c) _)) => some c
      | _ => none
    let code1 :=
      match script with
      | some sc => acc.code ++ sc ++ "\n" ++ "\n"
      | none =>
        let c0 := acc.code ++ "  return \x7b\n"
        let c1 :=
          match acc.exportNodes with
          | [e] => c0 ++ "    el: " ++ getVariableName m e ++ ",\n"
          | es => c0 ++ "    el: [" ++ String.intercalate ", " (es.map (getVariableName m)) ++ "],\n"
        let c2 := acc.variableExport.foldl (fun c pr =>
          c ++ "    get " ++ pr.2.2 ++ "() \x7b\n" ++ "    \x7d,\n"
            ++ "    set " ++ pr.2.2 ++ "(value) \x7b\n"
            ++ "      " ++ getVariableName m pr.1 ++ ".setAttribute(\"" ++ pr.2.1 ++ "\", value);\n"
            ++ "    \x7d,\n") c1
        c2 ++ "  \x7d"
    let code2 := acc.eventHandlers.foldl (fun c pr =>
      c ++ "  " ++ getVariableName m pr.1 ++ ".addEventListener(" ++ jsonStringify pr.2.1
        ++ ", " ++ pr.2.2 ++ ")") code1
    code2 ++ "\n\x7d"

/-- A segregated (tag `template`/`script`/`style`) root node. -/
def isSpecialRoot : Node → Bool
  | .tag _ t _ _ => t = "template" || t = "script" || t = "style"
  | .text _ _ => false

/-- Every root of the document is segregated, so the document has zero
exportable root nodes. -/
def allRootsSpecial : NodeForest → Bool
  | .nil => true
  | .cons n ns => isSpecialRoot n && allRootsSpecial ns

end P1

/-!  Auxiliary definitions used by the theorems below. -/

/-- The `type === 'svg'` flag of a declared node (`false` for text nodes). -/
def isSvgFlag : DeclaredNode → Bool
  | .text _ _ => false
  | .elem _ isSvg _ _ _ _ _ _ => isSvg

/-- The `events` field of a declared node (`[]` for text nodes). -/
def eventsField : DeclaredNode → List EventAttribute
  | .text _ _ => []
  | .elem _ _ _ _ evs _ _ _ => evs

/-- The `variableAttributes` field of a declared node (`[]` for text nodes). -/
def variableAttributesField : DeclaredNode → List VariableAttribute
  | .text _ _ => []
  | .elem _ _ _ _ _ vas _ _ => vas

/-- The optional tree-assembly line of one node's `compileHtml` chunk
(present exactly when the node has a declared parent). -/
def appendOpt (pn : Option String) (d : DeclaredNode) : List String :=
  match pn with
  | some p => [appendLine p (nameof d)]
  | none => []

/-- The plain-attribute statement lines of one node's `compileHtml` chunk. -/
def attrLinesOf : DeclaredNode → List String
  | .text _ _ => []
  | .elem rid isSvg t rt evs vas ats cs =>
    ats.map (attrLine (nameof (.elem rid isSvg t rt evs vas ats cs)))

/-- Occurrence of `sub` as a contiguous segment of `l`. -/
def listInfix (sub : List Char) : List Char → Bool
  | [] => sub.isPrefixOf []
  | c :: cs => sub.isPrefixOf (c :: cs) || listInfix sub cs

/-- Substring test (JS `String.prototype.includes`). -/
def containsSubstr (s sub : String) : Bool :=
  listInfix sub.data s.data

mutual
/-- All nodes of a declared tree in the pre-order of `walkDeclared`. -/
def allNodesT : DeclaredNode → List DeclaredNode
  | .text rid c => [.text rid c]
  | .elem rid isSvg t rt evs vas ats cs =>
    .elem rid isSvg t rt evs vas ats cs :: allNodesF cs

/-- All nodes of a declared forest in the pre-order of `walkDeclared`. -/
def allNodesF : DeclaredForest → List DeclaredNode
  | .nil => []
  | .cons d ds => allNodesT d ++ allNodesF ds
end

/-- The top-level members of a declared forest as a list. -/
def topList : DeclaredForest → List DeclaredNode
  | .nil => []
  | .cons d ds => d :: topList ds

/-- Drop the root-level nodes that `prepareNodes` would segregate into the
`templates` bucket (a root tag node named `template`; at the root the
declared `type` of such a node is always `element`). -/
def removeRootTemplates : NodeForest → NodeForest
  | .nil => .nil
  | .cons n ns =>
    match n with
    | .tag _ "template" _ _ => removeRootTemplates ns
    | other => .cons other (removeRootTemplates ns)

/-- Drop the root-level nodes that `prepareNodes` would segregate into the
`styles` bucket (a root tag node named `style`). -/
def removeRootStyles : NodeForest → NodeForest
  | .nil => .nil
  | .cons n ns =>
    match n with
    | .tag _ "style" _ _ => removeRootStyles ns
    | other => .cons other (removeRootStyles ns)

/-- Drop every root-level node that `prepareNodes` segregates (root tag nodes
named `template`, `script` or `style`; at the root such nodes always have
declared `type` `element`). -/
def removeSegregatedRoots : NodeForest → NodeForest
  | .nil => .nil
  | .cons n ns =>
    match n with
    | .tag _ "template" _ _ => removeSegregatedRoots ns
    | .tag _ "script" _ _ => removeSegregatedRoots ns
    | .tag _ "style" _ _ => removeSegregatedRoots ns
    | other => .cons other (removeSegregatedRoots ns)

/-!  The value normalization of the parser's `normalizeAttributes`
(src/unnamed/part_002, lines 374–382). -/

/-- The character class of the regex `/[\r\n\x0B\x0C\u0085  ]+/g`
in `normalizeAttributes`. -/
def isNewlineClass (c : Char) : Bool :=
  c == '\r' || c == '\n' || c == '\x0b' || c == '\x0c' ||
  c == '\u0085' || c == ' ' || c == ' '

/-- JS `replace(/[\r\n\x0B\x0C\u0085  ]+/g, " ")`: every maximal
run of characters of the class is replaced by one space (the flag records
whether the previous character belonged to a run). -/
def collapseNewlineRuns (prevInClass : Bool) : List Char → List Char
  | [] => []
  | c :: cs =>
    if isNewlineClass c then
      (if prevInClass then [] else [' ']) ++ collapseNewlineRuns true cs
    else c :: collapseNewlineRuns false cs

/-- The attribute-value normalization of the parser's `normalizeAttributes`:
`attrs[name].replace(/[\r\n\x0B\x0C\u0085  ]+/g, " ").trim()`. -/
def normalizeAttrValue (v : String) : String :=
  jsTrim ⟨collapseNewlineRuns false v.data⟩

/-- The `normalizeAttributes` of the htmlparser2-based parser: map each raw
`(name, value)` pair to a `NodeAttribute` with the normalized value. -/
def normalizeAttributes (attrs : List (String × String)) : List NodeAttribute :=
  attrs.map (fun pr => ⟨pr.1, normalizeAttrValue pr.2⟩)

/-!  Modifier erasure and the modifiers-only-difference relation (used to
state that event modifiers never influence the generated code). -/

/-- Erase the modifier list of an event directive. -/
def eraseEv (e : EventAttribute) : EventAttribute :=
  ⟨e.eventName, [], e.variableName⟩

/-- Erase modifiers inside a classified attribute. -/
def eraseDA : DeclaredAttribute → DeclaredAttribute
  | .eventAttr e => .eventAttr (eraseEv e)
  | a => a

mutual
/-- Erase all event-modifier lists of a declared tree. -/
def eraseT : DeclaredNode → DeclaredNode
  | .text rid c => .text rid c
  | .elem rid isSvg t rt evs vas ats cs =>
    .elem rid isSvg t rt (evs.map eraseEv) vas ats (eraseF cs)

/-- Erase all event-modifier lists of a declared forest. -/
def eraseF : DeclaredForest → DeclaredForest
  | .nil => .nil
  | .cons d ds => .cons (eraseT d) (eraseF ds)
end

/-- An event-name segment free of the delimiters `:`, `.` and `|`. -/
def eventSegOk (e : String) : Bool :=
  e.data.all (fun c => !(c == ':' || c == '.' || c == '|'))

/-- A modifier suffix of an `on:<event>` attribute name: empty, or starting
with one of the delimiters `.`, `|`, `:` (so that it never changes the
parsed event name). -/
def modSuffixOk (m : String) : Bool :=
  match m.data with
  | [] => true
  | c :: _ => c == '.' || c == '|' || c == ':'

/-- Two raw attributes identical except for the modifier segments of an
`on:<event>={...}` attribute name. -/
def attrME (a b : NodeAttribute) : Prop :=
  a = b ∨
  ∃ e m1 m2, eventSegOk e = true ∧ modSuffixOk m1 = true ∧ modSuffixOk m2 = true ∧
    a.name = "on:" ++ e ++ m1 ∧ b.name = "on:" ++ e ++ m2 ∧ a.value = b.value ∧
    jsStartsWith a.value "\x7b" = true

mutual
/-- Two raw trees identical except for event-modifier segments. -/
inductive NodeME : Node → Node → Prop where
  | text (rid : Nat) (s : String) : NodeME (.text rid s) (.text rid s)
  | tag (rid : Nat) (t : String) (as1 as2 : List NodeAttribute) (cs1 cs2 : NodeForest) :
      List.Forall₂ attrME as1 as2 → ForestME cs1 cs2 →
      NodeME (.tag rid t as1 cs1) (.tag rid t as2 cs2)

/-- Two raw forests identical except for event-modifier segments. -/
inductive ForestME : NodeForest → NodeForest → Prop where
  | nil : ForestME .nil .nil
  | cons {a b : Node} {as_ bs : NodeForest} :
      NodeME a b → ForestME as_ bs → ForestME (.cons a as_) (.cons b bs)
end

/-!  Concrete example documents (one family per claim). -/

/-- Example for C1 (and C3): `<div class="c"><span>hi</span></div>`, with
the refIds the parser assigns in document order. -/
def docC1 : NodeForest :=
  .cons (.tag 1 "div" [⟨"class", "c"⟩]
    (.cons (.tag 2 "span" [] (.cons (.text 3 "hi") .nil)) .nil)) .nil

/-- The declared div of `docC1`. -/
def divC1 : DeclaredNode :=
  .elem 1 false "div" none [] [] [⟨"class", "c"⟩]
    (.cons (.elem 2 false "span" none [] [] [] (.cons (.text 3 "hi") .nil)) .nil)

/-- The declared span of `docC1`. -/
def spanC1 : DeclaredNode :=
  .elem 2 false "span" none [] [] [] (.cons (.text 3 "hi") .nil)

/-- The declared root list of `docC1`. -/
def rootsC1 : DeclaredForest :=
  (prepareNodes (declareForest (fun s => s) [] docC1)).rootNodes

/-- Example for C2: `<svg><rect/></svg>`. -/
def docC2 : NodeForest :=
  .cons (.tag 1 "svg" [] (.cons (.tag 2 "rect" [] .nil) .nil)) .nil

/-- Example for C2: a `<rect>` with no `svg` ancestor. -/
def docC2b : NodeForest :=
  .cons (.tag 1 "rect" [] .nil) .nil

/-- Example for C3: `<div class="c"><span>hi</span></div>` (own copy). -/
def docC3 : NodeForest :=
  .cons (.tag 1 "div" [⟨"class", "c"⟩]
    (.cons (.tag 2 "span" [] (.cons (.text 3 "hi") .nil)) .nil)) .nil

/-- Example for C4: `<div on:click={onClick}><img {src}></div>`. -/
def docC4 : NodeForest :=
  .cons (.tag 1 "div" [⟨"on:click", "\x7bonClick\x7d"⟩]
    (.cons (.tag 2 "img" [⟨"\x7bsrc\x7d", ""⟩] .nil) .nil)) .nil

/-- Example for C7: a document holding only `<style>body{}</style>`
(refIds as the posthtml-based parser of part_002's first half assigns,
starting at 2). -/
def docC7 : NodeForest :=
  .cons (.tag 2 "style" [] (.cons (.text 3 "body\x7b\x7d") .nil)) .nil

/-- Example for C8: a root-level `<template><div></div></template>`. -/
def docC8 : NodeForest :=
  .cons (.tag 1 "template" [] (.cons (.tag 2 "div" [] .nil) .nil)) .nil

/-- Example for C10: `<div on:click={h}></div>`. -/
def docC10a : NodeForest :=
  .cons (.tag 1 "div" [⟨"on:click", "\x7bh\x7d"⟩] .nil) .nil

/-- Example for C10: `<div on:click.once.passive={h}></div>`. -/
def docC10b : NodeForest :=
  .cons (.tag 1 "div" [⟨"on:click.once.passive", "\x7bh\x7d"⟩] .nil) .nil

/-!  Helper lemmas. -/

theorem data_append (a b : String) : (a ++ b).data = a.data ++ b.data := rfl

theorem append_ne_empty_right (a b : String) (h : b ≠ "") : a ++ b ≠ "" := by
  intro hc
  apply h
  have hd : a.data ++ b.data = [] := by
    have := congrArg String.data hc
    simpa [data_append] using this
  have hb : b.data = [] := (List.append_eq_nil.mp hd).2
  exact congrArg String.mk hb

theorem isPrefixOf_shape : ∀ {l1 l2 : List Char}, l1.isPrefixOf l2 = true → ∃ t, l2 = l1 ++ t := by
  intro l1
  induction l1 with
  | nil => exact fun h => ⟨_, rfl⟩
  | cons a as ih =>
    intro l2 h
    cases l2 with
    | nil => simp [List.isPrefixOf] at h
    | cons b bs =>
      rw [List.isPrefixOf, Bool.and_eq_true] at h
      obtain ⟨t, ht⟩ := ih h.2
      obtain rfl := eq_of_beq h.1
      exact ⟨t, by simp [ht]⟩

theorem startsWith_shape {s pre : String} (h : jsStartsWith s pre = true) :
    ∃ rest, s.data = pre.data ++ rest := by
  unfold jsStartsWith at h
  exact isPrefixOf_shape h

theorem hasSvgParent_eq_any (l : List Node) : hasSvgParent l = l.any isSvgNode := by
  induction l with
  | nil => rfl
  | cons p anc ih => simp [hasSvgParent, ih]

theorem isSvgNode_iff (p : Node) :
    isSvgNode p = true ↔ ∃ r a c, p = Node.tag r "svg" a c := by
  cases p with
  | text rid s => simp [isSvgNode]
  | tag rid t attrs cs =>
    simp only [isSvgNode, beq_iff_eq]
    constructor
    · rintro rfl; exact ⟨rid, attrs, cs, rfl⟩
    · rintro ⟨r, a, c, he⟩; cases he; rfl

/-!  Claim theorems. -/

/-- C5: an attribute whose name starts with `on:` but whose value does not
start with `{` is not classified as an event and does not fail: it classifies
as a plain (generic) attribute with name and value passed through verbatim. -/
theorem onColon_without_brace_value_is_generic (name value : String)
    (h1 : jsStartsWith name "on:" = true)
    (h2 : jsStartsWith value "\x7b" = false) :
    compileAttribute ⟨name, value⟩ = some (.genAttr ⟨name, value⟩) := by
  obtain ⟨rest, hr⟩ := startsWith_shape h1
  have hd : name.data = 'o' :: 'n' :: ':' :: rest := by simpa using hr
  have h3 : jsStartsWith name "=" = false := by
    unfold jsStartsWith
    rw [hd]
    rfl
  have h4 : jsStartsWith name "\x7b" = false := by
    unfold jsStartsWith
    rw [hd]
    rfl
  have hne : name ≠ "#ref" := by
    intro he
    rw [he] at hd
    simp at hd
  unfold compileAttribute
  simp [h2, h3, h4, hne]

/-- Witness for C5 at the concrete input `on:click="doStuff()"`. -/
theorem onColon_without_brace_value_is_generic_w :
    jsStartsWith "on:click" "on:" = true ∧
    jsStartsWith "doStuff()" "\x7b" = false ∧
    compileAttribute ⟨"on:click", "doStuff()"⟩ =
      some (.genAttr ⟨"on:click", "doStuff()"⟩) := by
  refine ⟨by decide, by decide, ?_⟩
  exact onColon_without_brace_value_is_generic "on:click" "doStuff()" (by decide) (by decide)

/-- C6: a `#ref` attribute classifies as a ref directive named by the trimmed
value, defaulting to `el` when the trimmed value is empty; the inputs
`#ref`/`#ref=""` (both value `""`) and `#ref=" "` all yield the handle `el`,
which `nameof` then uses as the element's generated variable name. -/
theorem refAttr_default_el (value : String) :
    compileAttribute ⟨"#ref", value⟩ =
      some (.refAttr (if jsTrim value = "" then "el" else jsTrim value))
  ∧ compileAttribute ⟨"#ref", ""⟩ = some (.refAttr "el")
  ∧ compileAttribute ⟨"#ref", " "⟩ = some (.refAttr "el")
  ∧ nameof (declareNode (fun s => s) [] (.tag 1 "div" [⟨"#ref", ""⟩] .nil)) = "el"
  ∧ nameof (declareNode (fun s => s) [] (.tag 1 "div" [⟨"#ref", " "⟩] .nil)) = "el" := by
  refine ⟨?_, by decide, by decide, by decide, by decide⟩
  have h1 : jsStartsWith "#ref" "=" = false := by decide
  simp [compileAttribute, h1]

/-- C9 (evaluation of the code at the failing input): the parser's attribute
normalization collapses only newline-class character runs, so a value with
two interior spaces keeps them (`"a␣␣b"` stays `"a␣␣b"`, not `"a␣b"`) and an
interior tab survives, while a newline run does become one space. -/
theorem normalizeAttrValue_keeps_interior_spaces :
    normalizeAttributes [("x", "a  b")] = [⟨"x", "a  b"⟩]
  ∧ normalizeAttrValue "a  b" ≠ "a b"
  ∧ normalizeAttrValue "a\tb" = "a\tb"
  ∧ normalizeAttrValue "a\n\nb" = "a b" := by
  refine ⟨by decide, by decide, by decide, by decide⟩

/-- C2: a declared tag node's `type` is `svg` iff its tag is exactly `svg` or
some ancestor's tag is exactly `svg`; the creation statement is the
namespaced `createElementNS` form exactly when the flag is set, plain
`createElement` otherwise; in `<svg><rect/></svg>` both elements use the
namespaced form while a `rect` with no `svg` ancestor uses plain creation. -/
theorem svg_flag_iff_svg_tag_or_ancestor (decode : String → String) (anc : List Node)
    (rid : Nat) (t : String) (attrs : List NodeAttribute) (cs : NodeForest)
    (rid' : Nat) (sv : Bool) (t' : String) (rt : Option String)
    (evs : List EventAttribute) (vas : List VariableAttribute)
    (ats : List GenericAttribute) (cs' : DeclaredForest) :
    (isSvgFlag (declareNode decode anc (.tag rid t attrs cs)) = true ↔
      (t = "svg" ∨ ∃ p ∈ anc, ∃ r a c, p = Node.tag r "svg" a c))
  ∧ creationLine (.elem rid' sv t' rt evs vas ats cs') =
      (if sv then
        "const " ++ nameof (.elem rid' sv t' rt evs vas ats cs')
          ++ " = document.createElementNS(\"http://www.w3.org/2000/svg\", \"" ++ t' ++ "\");"
      else
        "const " ++ nameof (.elem rid' sv t' rt evs vas ats cs')
          ++ " = document.createElement(\"" ++ t' ++ "\");")
  ∧ compileLines (fun s => s) docC2 =
      ["export function compile() \x7b",
       "  const el1 = document.createElementNS(\"http://www.w3.org/2000/svg\", \"svg\");",
       "",
       "  const el2 = document.createElementNS(\"http://www.w3.org/2000/svg\", \"rect\");",
       "  el1.appendChild(el2);",
       "",
       "\x7d"]
  ∧ compileLines (fun s => s) docC2b =
      ["export function compile() \x7b",
       "  const el1 = document.createElement(\"rect\");",
       "",
       "\x7d"] := by
  refine ⟨?_, by cases sv <;> rfl, by decide, by decide⟩
  show shouldRenderAsSvg (.tag rid t attrs cs) anc = true ↔ _
  unfold shouldRenderAsSvg
  rw [Bool.or_eq_true, hasSvgParent_eq_any]
  simp only [isSvgNode, beq_iff_eq, List.any_eq_true]
  constructor
  · rintro (h | ⟨p, hp, hsvg⟩)
    · exact Or.inl h
    · exact Or.inr ⟨p, hp, (isSvgNode_iff p).mp hsvg⟩
  · rintro (h | ⟨p, hp, hshape⟩)
    · exact Or.inl h
    · exact Or.inr ⟨p, hp, (isSvgNode_iff p).mpr hshape⟩

set_option maxRecDepth 40000 in
/-- C3: plain-attribute statements are emitted immediately after the
element's creation statement, in attribute-declaration order, with `width`
and `height` as direct property assignments, `class` as a `className`
property assignment, `style` as a `.style.cssText` assignment, and every
other plain attribute as a `setAttribute` call; compiling
`<div class="c"><span>hi</span></div>` yields two element creations, a
`className` assignment (no `setAttribute` anywhere in the output), the text
`hi` as a `createTextNode` appended to the span, and the span appended to
the div. -/
theorem plain_attribute_emission (decode : String → String) (pn : Option String)
    (rid : Nat) (sv : Bool) (t : String) (rt : Option String)
    (evs : List EventAttribute) (vas : List VariableAttribute)
    (ats : List GenericAttribute) (cs : DeclaredForest) (elN name v : String) :
    compileHtml pn (.elem rid sv t rt evs vas ats cs) =
      creationLine (.elem rid sv t rt evs vas ats cs)
        :: ats.map (attrLine (nameof (.elem rid sv t rt evs vas ats cs)))
        ++ (match pn with
            | some p => [appendLine p (nameof (.elem rid sv t rt evs vas ats cs))]
            | none => [])
        ++ [""]
  ∧ (name = "width" ∨ name = "height" →
      attrLine elN ⟨name, v⟩ = elN ++ "." ++ name ++ " = " ++ jsonStringify v ++ ";")
  ∧ attrLine elN ⟨"class", v⟩ = elN ++ ".className = " ++ jsonStringify v ++ ";"
  ∧ attrLine elN ⟨"style", v⟩ = elN ++ ".style.cssText = " ++ jsonStringify v ++ ";"
  ∧ (name ≠ "width" → name ≠ "height" → name ≠ "class" → name ≠ "style" →
      attrLine elN ⟨name, v⟩ =
        elN ++ ".setAttribute(" ++ jsonStringify name ++ ", " ++ jsonStringify v ++ ");")
  ∧ (decode "hi" = "hi" → compileLines decode docC3 =
      ["export function compile() \x7b",
       "  const el1 = document.createElement(\"div\");",
       "  el1.className = \"c\";",
       "",
       "  const el2 = document.createElement(\"span\");",
       "  el1.appendChild(el2);",
       "",
       "  const el3 = document.createTextNode(\"hi\");",
       "  el2.appendChild(el3);",
       "",
       "\x7d"])
  ∧ containsSubstr (compile (fun s => s) docC3) "setAttribute" = false
  ∧ containsSubstr (compile (fun s => s) docC3) ".className = " = true := by
  refine ⟨by cases pn <;> rfl, ?_, by simp [attrLine], by simp [attrLine], ?_, ?_,
    by decide, by decide⟩
  · intro h
    simp only [attrLine]
    rw [if_pos h]
  · intro h1 h2 h3 h4
    simp [attrLine, h1, h2, h3, h4]
  · intro hdec
    have hdf : declareForest decode [] docC3 = declareForest (fun s => s) [] docC3 := by
      simp only [docC3, declareForest, declareNode, hdec]
    calc compileLines decode docC3
        = ["export function compile() \x7b"]
          ++ emitForest none (prepareNodes (declareForest decode [] docC3)).rootNodes
          ++ spliceForest (prepareNodes (declareForest decode [] docC3)).scripts
          ++ (eventsForest (prepareNodes (declareForest decode [] docC3)).rootNodes).map eventLine
          ++ ["\x7d"] := rfl
      _ = _ := by rw [hdf]; decide

/-- Witness for C3 at concrete inputs: a `width` attribute becomes a property
assignment, a `data-x` attribute becomes a `setAttribute` call, and the
round-trip document compiles to the expected lines. -/
theorem plain_attribute_emission_w :
    attrLine "el1" ⟨"width", "5"⟩ = "el1.width = \"5\";"
  ∧ attrLine "el1" ⟨"data-x", "1"⟩ = "el1.setAttribute(\"data-x\", \"1\");"
  ∧ compileLines (fun s => s) docC3 =
      ["export function compile() \x7b",
       "  const el1 = document.createElement(\"div\");",
       "  el1.className = \"c\";",
       "",
       "  const el2 = document.createElement(\"span\");",
       "  el1.appendChild(el2);",
       "",
       "  const el3 = document.createTextNode(\"hi\");",
       "  el2.appendChild(el3);",
       "",
       "\x7d"] := by
  have h := plain_attribute_emission (fun s => s) none 0 false "" none [] [] []
    DeclaredForest.nil "el1" "width" "5"
  have h2 := plain_attribute_emission (fun s => s) none 0 false "" none [] [] []
    DeclaredForest.nil "el1" "data-x" "1"
  refine ⟨?_, ?_, h.2.2.2.2.2.1 rfl⟩
  · rw [h.2.1 (Or.inl rfl)]; decide
  · rw [h2.2.2.2.2.1 (by decide) (by decide) (by decide) (by decide)]; decide

/-- C4: event-listener registrations come after every creation, attribute,
assembly and spliced-script statement (the output is header, then the
emission walk, then the script splice, then all event lines, then the
closing brace), and they are collected in the pre-order of the structural
walk: a node contributes its own events in sequence before its children's;
on `<div on:click={onClick}><img {src}></div>` the registration binding
`click` to `onClick` is the last statement before the closing brace, and the
`src` shorthand is recorded as a variable-binding directive of the img. -/
theorem event_statements_follow_structure (decode : String → String) (ns : NodeForest)
    (rid : Nat) (sv : Bool) (t : String) (rt : Option String) (c : String)
    (evs : List EventAttribute) (vas : List VariableAttribute)
    (ats : List GenericAttribute) (cs : DeclaredForest)
    (d : DeclaredNode) (ds : DeclaredForest) (nm : String) (e : EventAttribute) :
    compileLines decode ns =
      ["export function compile() \x7b"]
      ++ emitForest none (prepareNodes (declareForest decode [] ns)).rootNodes
      ++ spliceForest (prepareNodes (declareForest decode [] ns)).scripts
      ++ (eventsForest (prepareNodes (declareForest decode [] ns)).rootNodes).map eventLine
      ++ ["\x7d"]
  ∧ eventsTree (.elem rid sv t rt evs vas ats cs) =
      evs.map (fun ev => (nameof (.elem rid sv t rt evs vas ats cs), ev)) ++ eventsForest cs
  ∧ eventsTree (.text rid c) = []
  ∧ eventsForest (.cons d ds) = eventsTree d ++ eventsForest ds
  ∧ eventLine (nm, e) =
      "  " ++ nm ++ ".addEventListener(" ++ jsonStringify e.eventName ++ ", "
        ++ e.variableName ++ ")"
  ∧ declareForest (fun s => s) [] docC4 =
      .cons (.elem 1 false "div" none [⟨"click", [], "onClick"⟩] [] []
        (.cons (.elem 2 false "img" none [] [⟨"src", "src"⟩] [] .nil) .nil)) .nil
  ∧ compileLines (fun s => s) docC4 =
      ["export function compile() \x7b",
       "  const el1 = document.createElement(\"div\");",
       "",
       "  const el2 = document.createElement(\"img\");",
       "  el1.appendChild(el2);",
       "",
       "  el1.addEventListener(\"click\", onClick)",
       "\x7d"] := by
  exact ⟨rfl, rfl, rfl, rfl, rfl, by decide, by decide⟩

theorem splice_remaining_nil :
    ∀ (ns : NodeForest), P1.allRootsSpecial ns = true → (P1.splice ns).remaining = .nil
  | .nil, _ => rfl
  | .cons n ns, h => by
    rw [P1.allRootsSpecial, Bool.and_eq_true] at h
    obtain ⟨h1, h2⟩ := h
    have ih := splice_remaining_nil ns h2
    cases n with
    | text rid s => simp [P1.isSpecialRoot] at h1
    | tag rid t attrs cs =>
      simp only [P1.isSpecialRoot, Bool.or_eq_true, decide_eq_true_eq] at h1
      rcases h1 with (h1 | h1) | h1 <;> subst h1 <;>
        simp [P1.splice, ih]

/-- C7: a document whose every root node is segregated (tagged `template`,
`script` or `style`) produces zero exportable root nodes, and the part_001
`compile` then returns the empty string instead of failing or emitting a
function wrapper. -/
theorem no_export_nodes_yields_empty_output (decode : String → String)
    (ns : NodeForest) (h : P1.allRootsSpecial ns = true) :
    P1.compile decode ns = "" := by
  have hr := splice_remaining_nil ns h
  simp [P1.compile, hr, P1.flatF, P1.buildMapF]

/-- Witness for C7 at the concrete document `<style>body{}</style>`. -/
theorem no_export_nodes_yields_empty_output_w :
    P1.allRootsSpecial docC7 = true ∧ P1.compile (fun s => s) docC7 = "" :=
  ⟨by decide, no_export_nodes_yields_empty_output (fun s => s) docC7 (by decide)⟩

/-- C8 counterexample: compiling a root-level
`<template><div></div></template>` emits nothing at all — the template's div
child yields no creation or assembly statement (the whole output is the empty
function wrapper, with no `createElement` anywhere), contradicting the claim
that template children are still emitted. -/
theorem template_child_not_emitted_cex :
    compile (fun s => s) docC8 = "export function compile() \x7b\n\x7d\n"
  ∧ containsSubstr (compile (fun s => s) docC8) "createElement" = false
  ∧ topList (childrenOf (declareNode (fun s => s) []
      (.tag 1 "template" [] (.cons (.tag 2 "div" [] .nil) .nil)))) ≠ [] := by
  refine ⟨by decide, by decide, by decide⟩

theorem prepared_fields_of_remove (decode : String → String) :
    ∀ (ns : NodeForest),
    (prepareNodes (declareForest decode [] (removeRootTemplates ns))).rootNodes
      = (prepareNodes (declareForest decode [] ns)).rootNodes
  ∧ (prepareNodes (declareForest decode [] (removeRootTemplates ns))).scripts
      = (prepareNodes (declareForest decode [] ns)).scripts
  | .nil => ⟨rfl, rfl⟩
  | .cons n ns => by
    have ih := prepared_fields_of_remove decode ns
    cases n with
    | text rid s =>
      simp only [removeRootTemplates, declareForest, prepareNodes, prepareStep, declareNode]
      exact ⟨by rw [ih.1], by rw [ih.2]⟩
    | tag rid t attrs cs =>
      by_cases ht : t = "template"
      · subst ht
        have hsv : shouldRenderAsSvg (.tag rid "template" attrs cs) [] = false := rfl
        simp only [removeRootTemplates, declareForest, prepareNodes, declareNode, prepareStep]
        rw [if_pos (by exact ⟨hsv, by trivial⟩)]
        exact ih
      · have hstep : ∀ r1 r2 : Prepared, r1.rootNodes = r2.rootNodes →
            r1.scripts = r2.scripts →
            (prepareStep (declareNode decode [] (.tag rid t attrs cs)) r1).rootNodes
              = (prepareStep (declareNode decode [] (.tag rid t attrs cs)) r2).rootNodes
            ∧ (prepareStep (declareNode decode [] (.tag rid t attrs cs)) r1).scripts
              = (prepareStep (declareNode decode [] (.tag rid t attrs cs)) r2).scripts := by
          intro r1 r2 hroot hs
          simp only [declareNode, prepareStep]
          split_ifs <;> simp [hroot, hs]
        have hrm : removeRootTemplates (.cons (.tag rid t attrs cs) ns)
            = .cons (.tag rid t attrs cs) (removeRootTemplates ns) := by
          cases cs <;> simp [removeRootTemplates, ht]
        rw [hrm]
        simp only [declareForest, prepareNodes]
        exact hstep _ _ ih.1 ih.2

theorem template_roots_ignored (decode : String → String) (ns : NodeForest) :
    compileLines decode (removeRootTemplates ns) = compileLines decode ns := by
  have h := prepared_fields_of_remove decode ns
  simp only [compileLines]
  rw [h.1, h.2]

theorem prepareStep_rootNodes_congr (d : DeclaredNode) (r1 r2 : Prepared)
    (h : r1.rootNodes = r2.rootNodes) :
    (prepareStep d r1).rootNodes = (prepareStep d r2).rootNodes := by
  cases d with
  | text rid c => simp [prepareStep, h]
  | elem rid sv t rt evs vas ats cs =>
    simp only [prepareStep]
    split_ifs <;> simp [h]

theorem prepareStep_special_rootNodes (decode : String → String) (rid : Nat) (t : String)
    (attrs : List NodeAttribute) (cs : NodeForest) (r : Prepared)
    (ht : t = "template" ∨ t = "script" ∨ t = "style") :
    (prepareStep (declareNode decode [] (.tag rid t attrs cs)) r).rootNodes
      = r.rootNodes := by
  rcases ht with rfl | rfl | rfl <;>
    simp [declareNode, prepareStep, shouldRenderAsSvg, isSvgNode, hasSvgParent]

theorem prepared_rootNodes_of_removeSegregated (decode : String → String) :
    ∀ (ns : NodeForest),
    (prepareNodes (declareForest decode [] (removeSegregatedRoots ns))).rootNodes
      = (prepareNodes (declareForest decode [] ns)).rootNodes
  | .nil => rfl
  | .cons n ns => by
    have ih := prepared_rootNodes_of_removeSegregated decode ns
    cases n with
    | text rid s =>
      simp only [removeSegregatedRoots, declareForest, prepareNodes]
      exact prepareStep_rootNodes_congr _ _ _ ih
    | tag rid t attrs cs =>
      by_cases ht : t = "template" ∨ t = "script" ∨ t = "style"
      · have hrm : removeSegregatedRoots (.cons (.tag rid t attrs cs) ns)
            = removeSegregatedRoots ns := by
          rcases ht with rfl | rfl | rfl <;> cases cs <;> simp [removeSegregatedRoots]
        rw [hrm, ih]
        show _ = (prepareStep (declareNode decode [] (.tag rid t attrs cs))
          (prepareNodes (declareForest decode [] ns))).rootNodes
        rw [prepareStep_special_rootNodes decode rid t attrs cs _ ht]
      · push_neg at ht
        have hrm : removeSegregatedRoots (.cons (.tag rid t attrs cs) ns)
            = .cons (.tag rid t attrs cs) (removeSegregatedRoots ns) := by
          cases cs <;> simp [removeSegregatedRoots, ht.1, ht.2.1, ht.2.2]
        rw [hrm]
        simp only [declareForest, prepareNodes]
        exact prepareStep_rootNodes_congr _ _ _ ih

theorem prepareStep_fields_congr (d : DeclaredNode) (r1 r2 : Prepared)
    (hroot : r1.rootNodes = r2.rootNodes) (hs : r1.scripts = r2.scripts) :
    (prepareStep d r1).rootNodes = (prepareStep d r2).rootNodes
  ∧ (prepareStep d r1).scripts = (prepareStep d r2).scripts := by
  cases d with
  | text rid c => exact ⟨by simp [prepareStep, hroot], by simp [prepareStep, hs]⟩
  | elem rid sv t rt evs vas ats cs =>
    simp only [prepareStep]
    split_ifs <;> exact ⟨by simp [hroot], by simp [hs]⟩

theorem prepareStep_style_fields (decode : String → String) (rid : Nat)
    (attrs : List NodeAttribute) (cs : NodeForest) (r : Prepared) :
    (prepareStep (declareNode decode [] (.tag rid "style" attrs cs)) r).rootNodes
      = r.rootNodes
  ∧ (prepareStep (declareNode decode [] (.tag rid "style" attrs cs)) r).scripts
      = r.scripts := by
  constructor <;>
    simp [declareNode, prepareStep, shouldRenderAsSvg, isSvgNode, hasSvgParent]

theorem prepared_fields_of_removeStyles (decode : String → String) :
    ∀ (ns : NodeForest),
    (prepareNodes (declareForest decode [] (removeRootStyles ns))).rootNodes
      = (prepareNodes (declareForest decode [] ns)).rootNodes
  ∧ (prepareNodes (declareForest decode [] (removeRootStyles ns))).scripts
      = (prepareNodes (declareForest decode [] ns)).scripts
  | .nil => ⟨rfl, rfl⟩
  | .cons n ns => by
    have ih := prepared_fields_of_removeStyles decode ns
    cases n with
    | text rid s =>
      simp only [removeRootStyles, declareForest, prepareNodes]
      exact prepareStep_fields_congr _ _ _ ih.1 ih.2
    | tag rid t attrs cs =>
      by_cases ht : t = "style"
      · subst ht
        have hrm : removeRootStyles (.cons (.tag rid "style" attrs cs) ns)
            = removeRootStyles ns := by
          cases cs <;> simp [removeRootStyles]
        rw [hrm]
        have hsf := prepareStep_style_fields decode rid attrs cs
          (prepareNodes (declareForest decode [] ns))
        simp only [declareForest, prepareNodes]
        exact ⟨ih.1.trans hsf.1.symm, ih.2.trans hsf.2.symm⟩
      · have hrm : removeRootStyles (.cons (.tag rid t attrs cs) ns)
            = .cons (.tag rid t attrs cs) (removeRootStyles ns) := by
          cases cs <;> simp [removeRootStyles, ht]
        rw [hrm]
        simp only [declareForest, prepareNodes]
        exact prepareStep_fields_congr _ _ _ ih.1 ih.2

theorem style_roots_ignored (decode : String → String) (ns : NodeForest) :
    compileLines decode (removeRootStyles ns) = compileLines decode ns := by
  have h := prepared_fields_of_removeStyles decode ns
  simp only [compileLines]
  rw [h.1, h.2]

/-- C8 amended: during emission the subtrees of root-level `script` and
`style` nodes are skipped, and the children of a root-level `template` node
are NOT emitted either.  Concretely: the forest the DOM-emission walk (and
the event collection) traverses is unchanged when every root-level
`template`/`script`/`style` node is deleted from the input — their subtrees
contribute no creation/attribute/assembly statement — and root-level
templates and styles are never consulted at all, so deleting them leaves the
whole output unchanged. -/
theorem segregated_root_subtrees_skipped (decode : String → String) (ns : NodeForest) :
    (prepareNodes (declareForest decode [] (removeSegregatedRoots ns))).rootNodes
      = (prepareNodes (declareForest decode [] ns)).rootNodes
  ∧ compileLines decode (removeRootTemplates ns) = compileLines decode ns
  ∧ compileLines decode (removeRootStyles ns) = compileLines decode ns :=
  ⟨prepared_rootNodes_of_removeSegregated decode ns,
   template_roots_ignored decode ns,
   style_roots_ignored decode ns⟩

theorem creationLine_ne (d : DeclaredNode) : creationLine d ≠ "" := by
  cases d with
  | text rid c => exact append_ne_empty_right _ _ (by decide)
  | elem rid sv t rt evs vas ats cs =>
    cases sv <;> exact append_ne_empty_right _ _ (by decide)

theorem attrLine_ne (elN : String) (a : GenericAttribute) : attrLine elN a ≠ "" := by
  unfold attrLine
  split_ifs <;> exact append_ne_empty_right _ _ (by decide)

theorem appendLine_ne (p c : String) : appendLine p c ≠ "" :=
  append_ne_empty_right _ _ (by decide)

theorem dtb_cons (x : String) (xs : List String) :
    dropTrailingBlanks (x :: xs) =
      (match dropTrailingBlanks xs with
       | [] => if x = "" then [] else [x]
       | r => x :: r) := rfl

theorem dtb_append_blank_of_ne :
    ∀ (l : List String), (∀ x ∈ l, x ≠ "") → dropTrailingBlanks (l ++ [""]) = l := by
  intro l
  induction l with
  | nil => intro _; rfl
  | cons x xs ih =>
    intro h
    have hx : x ≠ "" := h x (by simp)
    have hxs : dropTrailingBlanks (xs ++ [""]) = xs :=
      ih (fun y hy => h y (by simp [hy]))
    rw [List.cons_append, dtb_cons, hxs]
    cases xs with
    | nil => simp [hx]
    | cons y ys => rfl

theorem emitNode_eq (pn : Option String) (d : DeclaredNode) :
    emitNode pn d =
      indentLine (creationLine d) :: (attrLinesOf d).map indentLine
      ++ (appendOpt pn d).map indentLine
      ++ [""] := by
  have hbody : compileHtml pn d =
      (creationLine d :: attrLinesOf d ++ appendOpt pn d) ++ [""] := by
    cases d <;> cases pn <;> simp [compileHtml, attrLinesOf, appendOpt]
  have hne : ∀ x ∈ (creationLine d :: attrLinesOf d ++ appendOpt pn d), x ≠ "" := by
    intro x hx
    rcases List.mem_cons.mp hx with rfl | hx2
    · exact creationLine_ne d
    rcases List.mem_append.mp hx2 with h3 | h4
    · cases d with
      | text rid c => simp [attrLinesOf] at h3
      | elem rid sv t rt evs vas ats cs =>
        simp only [attrLinesOf, List.mem_map] at h3
        obtain ⟨a, _, rfl⟩ := h3
        exact attrLine_ne _ a
    · cases pn with
      | none => simp [appendOpt] at h4
      | some p =>
        rw [appendOpt] at h4
        rcases List.mem_singleton.mp h4 with rfl
        exact appendLine_ne _ _
  show (dropTrailingBlanks (compileHtml pn d)).map indentLine ++ [""] = _
  rw [hbody, dtb_append_blank_of_ne _ hne]
  simp [List.map_append]

theorem emitTree_eq (pn : Option String) (d : DeclaredNode) :
    emitTree pn d = emitNode pn d ++ emitForest (some (nameof d)) (childrenOf d) := by
  cases d <;> simp [emitTree, childrenOf, emitForest]

theorem emitForest_top_mem (pn : Option String) :
    ∀ (f : DeclaredForest) (c : DeclaredNode), c ∈ topList f →
      ∃ pre post, emitForest pn f = pre ++ emitTree pn c ++ post
  | .nil, c, h => by simp [topList] at h
  | .cons d ds, c, h => by
    rcases List.mem_cons.mp h with rfl | h2
    · exact ⟨[], emitForest pn ds, by simp [emitForest]⟩
    · obtain ⟨pre, post, heq⟩ := emitForest_top_mem pn ds c h2
      exact ⟨emitTree pn d ++ pre, post, by simp [emitForest, heq]⟩

mutual
theorem emitTree_ctx (pn : Option String) (d : DeclaredNode) (p : DeclaredNode)
    (h : p ∈ allNodesT d) :
    ∃ pre post pc, emitTree pn d = pre ++ emitTree pc p ++ post := by
  cases d with
  | text rid c =>
    simp only [allNodesT, List.mem_singleton] at h
    exact ⟨[], [], pn, by simp [h]⟩
  | elem rid sv t rt evs vas ats cs =>
    rcases List.mem_cons.mp h with rfl | h2
    · exact ⟨[], [], pn, by simp⟩
    · obtain ⟨pre, post, pc, heq⟩ :=
        emitForest_ctx (some (nameof (.elem rid sv t rt evs vas ats cs))) cs p h2
      refine ⟨emitNode pn (.elem rid sv t rt evs vas ats cs) ++ pre, post, pc, ?_⟩
      rw [emitTree, heq]
      simp

theorem emitForest_ctx (pn : Option String) (f : DeclaredForest) (p : DeclaredNode)
    (h : p ∈ allNodesF f) :
    ∃ pre post pc, emitForest pn f = pre ++ emitTree pc p ++ post := by
  cases f with
  | nil => simp [allNodesF] at h
  | cons d ds =>
    rcases List.mem_append.mp (by simpa [allNodesF] using h) with h2 | h2
    · obtain ⟨pre, post, pc, heq⟩ := emitTree_ctx pn d p h2
      exact ⟨pre, post ++ emitForest pn ds, pc, by rw [emitForest, heq]; simp⟩
    · obtain ⟨pre, post, pc, heq⟩ := emitForest_ctx pn ds p h2
      exact ⟨emitTree pn d ++ pre, post, pc, by rw [emitForest, heq]; simp⟩
end

/-- C1: in the output of `compile`, every `appendChild` statement comes
strictly after the line holding the creation statement of the parent node it
references, and the appended child's own creation statement precedes its
`appendChild` statement: for every emitted node `p` and every direct child
`c`, the output lines decompose as
`A ++ [creation of p] ++ B ++ [creation of c] ++ C ++ [append of c to p] ++ D`. -/
theorem parent_created_before_appendChild (decode : String → String) (ns : NodeForest)
    (p c : DeclaredNode)
    (hp : p ∈ allNodesF (prepareNodes (declareForest decode [] ns)).rootNodes)
    (hc : c ∈ topList (childrenOf p)) :
    ∃ A B C D, compileLines decode ns =
      A ++ [indentLine (creationLine p)] ++ B ++ [indentLine (creationLine c)]
        ++ C ++ [indentLine (appendLine (nameof p) (nameof c))] ++ D := by
  obtain ⟨pre, post, pc_, heq⟩ :=
    emitForest_ctx none (prepareNodes (declareForest decode [] ns)).rootNodes p hp
  obtain ⟨pre2, post2, heq2⟩ := emitForest_top_mem (some (nameof p)) (childrenOf p) c hc
  obtain ⟨mp, hmp⟩ : ∃ mp, emitNode pc_ p = indentLine (creationLine p) :: mp :=
    ⟨_, emitNode_eq pc_ p⟩
  have hcchunk := emitNode_eq (some (nameof p)) c
  refine ⟨["export function compile() \x7b"] ++ pre ++ [],
    mp ++ pre2, (attrLinesOf c).map indentLine,
    [""] ++ emitForest (some (nameof c)) (childrenOf c) ++ post2 ++ post
      ++ spliceForest (prepareNodes (declareForest decode [] ns)).scripts
      ++ (eventsForest (prepareNodes (declareForest decode [] ns)).rootNodes).map eventLine
      ++ ["\x7d"], ?_⟩
  show compileLines decode ns = _
  simp only [compileLines]
  rw [heq, emitTree_eq pc_ p, heq2, emitTree_eq (some (nameof p)) c, hmp, hcchunk]
  simp [appendOpt, List.append_assoc]

/-- Witness for C1 on `<div class="c"><span>hi</span></div>`: the div is an
emitted node and the span its direct child. -/
theorem parent_created_before_appendChild_w :
    divC1 ∈ allNodesF (prepareNodes (declareForest (fun s => s) [] docC1)).rootNodes
  ∧ spanC1 ∈ topList (childrenOf divC1)
  ∧ ∃ A B C D, compileLines (fun s => s) docC1 =
      A ++ [indentLine (creationLine divC1)] ++ B ++ [indentLine (creationLine spanC1)]
        ++ C ++ [indentLine (appendLine (nameof divC1) (nameof spanC1))] ++ D := by
  have h1 : divC1 ∈ allNodesF (prepareNodes (declareForest (fun s => s) [] docC1)).rootNodes :=
    by decide
  have h2 : spanC1 ∈ topList (childrenOf divC1) := by decide
  exact ⟨h1, h2, parent_created_before_appendChild (fun s => s) docC1 divC1 spanC1 h1 h2⟩

theorem splitChars_ne_nil (sep : Char → Bool) : ∀ (l : List Char), splitChars sep l ≠ [] := by
  intro l
  cases l with
  | nil => simp [splitChars]
  | cons c cs =>
    simp only [splitChars]
    cases h : splitChars sep cs with
    | nil => split_ifs <;> simp
    | cons a b => split_ifs <;> simp

theorem splitChars_cons_sep (sep : Char → Bool) (c : Char) (l : List Char)
    (hc : sep c = true) : splitChars sep (c :: l) = [] :: splitChars sep l := by
  simp only [splitChars]
  cases h : splitChars sep l with
  | nil => exact absurd h (splitChars_ne_nil sep l)
  | cons a b => simp [hc]

theorem splitChars_cons_notsep (sep : Char → Bool) (c : Char) (l : List Char)
    (h : List Char) (t : List (List Char)) (hc : sep c = false)
    (heq : splitChars sep l = h :: t) :
    splitChars sep (c :: l) = (c :: h) :: t := by
  simp only [splitChars]
  rw [heq]
  simp [hc]

theorem splitChars_sepfree_append (sep : Char → Bool) :
    ∀ (l1 l2 : List Char), (∀ c ∈ l1, sep c = false) →
      ∀ (h : List Char) (t : List (List Char)), splitChars sep l2 = h :: t →
        splitChars sep (l1 ++ l2) = (l1 ++ h) :: t := by
  intro l1
  induction l1 with
  | nil => intro l2 _ h t heq; simpa using heq
  | cons c l1 ih =>
    intro l2 hfree h t heq
    have hrec := ih l2 (fun x hx => hfree x (by simp [hx])) h t heq
    rw [List.cons_append,
      splitChars_cons_notsep sep c (l1 ++ l2) (l1 ++ h) t (hfree c (by simp)) hrec]
    simp

theorem modSuffix_split_head_nil (m : String) (hm : modSuffixOk m = true)
    (dp : Char → Bool) (hdot : dp '.' = true) (hpipe : dp '|' = true) :
    ∃ t2, dp '.' = true ∧
      splitChars dp ((splitChars (fun c => c == ':') m.data).headD []) = [] :: t2 := by
  rcases hmd : m.data with _ | ⟨c, rest⟩
  · exact ⟨[], hdot, by simp [splitChars]⟩
  · rw [modSuffixOk, hmd] at hm
    simp only [Bool.or_eq_true, beq_iff_eq] at hm
    rcases hm with (rfl | rfl) | rfl
    · obtain ⟨h, t, heq⟩ : ∃ h t, splitChars (fun c => c == ':') rest = h :: t := by
        cases hsp : splitChars (fun c => c == ':') rest with
        | nil => exact absurd hsp (splitChars_ne_nil _ rest)
        | cons a b => exact ⟨a, b, rfl⟩
      rw [splitChars_cons_notsep _ '.' rest h t (by decide) heq]
      simp only [List.headD_cons]
      exact ⟨splitChars dp h, hdot, splitChars_cons_sep dp '.' h hdot⟩
    · obtain ⟨h, t, heq⟩ : ∃ h t, splitChars (fun c => c == ':') rest = h :: t := by
        cases hsp : splitChars (fun c => c == ':') rest with
        | nil => exact absurd hsp (splitChars_ne_nil _ rest)
        | cons a b => exact ⟨a, b, rfl⟩
      rw [splitChars_cons_notsep _ '|' rest h t (by decide) heq]
      simp only [List.headD_cons]
      exact ⟨splitChars dp h, hdot, splitChars_cons_sep dp '|' h hpipe⟩
    · rw [splitChars_cons_sep _ ':' rest (by decide)]
      simp only [List.headD_cons]
      exact ⟨[], hdot, by simp [splitChars]⟩

theorem compileAttribute_on_event (e m v : String)
    (he : eventSegOk e = true) (hm : modSuffixOk m = true)
    (hv : jsStartsWith v "\x7b" = true) :
    ∃ mods, compileAttribute ⟨"on:" ++ e ++ m, v⟩ =
      some (.eventAttr ⟨e, mods, jsTrim (trimAny v ['{', '}'])⟩) := by
  have hefree : ∀ c ∈ e.data, (c == ':') = false := by
    intro c hc
    have := List.all_eq_true.mp he c hc
    simp only [Bool.not_eq_true', Bool.or_eq_false_iff] at this
    exact this.1.1
  have hefree2 : ∀ c ∈ e.data, (c == '|' || c == '.') = false := by
    intro c hc
    have := List.all_eq_true.mp he c hc
    simp only [Bool.not_eq_true', Bool.or_eq_false_iff] at this
    exact Bool.or_eq_false_iff.mpr ⟨this.2, this.1.2⟩
  have hd : ("on:" ++ e ++ m).data = 'o' :: 'n' :: ':' :: (e.data ++ m.data) := by
    have h0 : "on:".data = ['o', 'n', ':'] := rfl
    simp [data_append, h0]
  have h3 : jsStartsWith ("on:" ++ e ++ m) "=" = false := by
    unfold jsStartsWith
    rw [hd]
    rfl
  have h4 : jsStartsWith ("on:" ++ e ++ m) "\x7b" = false := by
    unfold jsStartsWith
    rw [hd]
    rfl
  have hne : ("on:" ++ e ++ m) ≠ "#ref" := by
    intro hc
    rw [hc] at hd
    simp at hd
  have hidx : jsIndexOf ("on:" ++ e ++ m) ':' = 2 := by
    unfold jsIndexOf
    rw [hd]
    rfl
  -- the colon split of the whole name
  obtain ⟨hm0, tm, hsplitm⟩ : ∃ h t, splitChars (fun c => c == ':') m.data = h :: t := by
    cases hsp : splitChars (fun c => c == ':') m.data with
    | nil => exact absurd hsp (splitChars_ne_nil _ m.data)
    | cons a b => exact ⟨a, b, rfl⟩
  have hsplitEM : splitChars (fun c => c == ':') (e.data ++ m.data) = (e.data ++ hm0) :: tm :=
    splitChars_sepfree_append _ e.data m.data hefree hm0 tm hsplitm
  have hsplitName : splitChars (fun c => c == ':') ("on:" ++ e ++ m).data
      = ['o', 'n'] :: (e.data ++ hm0) :: tm := by
    rw [hd]
    rw [splitChars_cons_notsep _ 'o' _ ['n'] ((e.data ++ hm0) :: tm) (by decide) ?h1]
    case h1 =>
      rw [splitChars_cons_notsep _ 'n' _ [] ((e.data ++ hm0) :: tm) (by decide) ?h2]
      case h2 => rw [splitChars_cons_sep _ ':' _ (by decide), hsplitEM]
  -- the dot/pipe split of the second colon component
  obtain ⟨t2, _, hdp⟩ := modSuffix_split_head_nil m hm (fun c => c == '|' || c == '.')
    (by decide) (by decide)
  rw [hsplitm] at hdp
  simp only [List.headD_cons] at hdp
  have hsplitDP : splitChars (fun c => c == '|' || c == '.') (e.data ++ hm0)
      = (e.data ++ []) :: t2 :=
    splitChars_sepfree_append _ e.data hm0 hefree2 [] t2 hdp
  have hgt : jsIndexOf ("on:" ++ e ++ m) ':' > 0 := by rw [hidx]; decide
  have hep : jsSplit ("on:" ++ e ++ m) (· == ':')
      = "on" :: (⟨e.data ++ hm0⟩ : String) :: tm.map (fun l => (⟨l⟩ : String)) := by
    unfold jsSplit
    rw [hsplitName]
    rfl
  have hdp2 : jsSplit (⟨e.data ++ hm0⟩ : String) (fun c => c == '|' || c == '.')
      = e :: t2.map (fun l => (⟨l⟩ : String)) := by
    unfold jsSplit
    rw [show ((⟨e.data ++ hm0⟩ : String)).data = e.data ++ hm0 from rfl, hsplitDP]
    rw [List.map_cons, List.append_nil]
  refine ⟨t2.map (fun l => (⟨l⟩ : String)), ?_⟩
  simp [compileAttribute, hep, hdp2, h3, h4, hv, hne, hgt]

theorem compileAttribute_erase_of_attrME {a b : NodeAttribute} (h : attrME a b) :
    (compileAttribute a).map eraseDA = (compileAttribute b).map eraseDA := by
  rcases h with rfl | ⟨e, m1, m2, he, hm1, hm2, ha, hb, hv, hvb⟩
  · rfl
  · obtain ⟨an, av⟩ := a
    obtain ⟨bn, bv⟩ := b
    simp only at ha hb hv hvb
    subst ha hb hv
    obtain ⟨mods1, h1⟩ := compileAttribute_on_event e m1 av he hm1 hvb
    obtain ⟨mods2, h2⟩ := compileAttribute_on_event e m2 av he hm2 hvb
    rw [h1, h2]
    rfl

theorem filterMapErase_congr {as1 as2 : List NodeAttribute}
    (h : List.Forall₂ attrME as1 as2) :
    ((as1.map compileAttribute).filterMap id).map eraseDA
      = ((as2.map compileAttribute).filterMap id).map eraseDA := by
  induction h with
  | nil => rfl
  | @cons a b l1 l2 hab htail ih =>
    have hh := compileAttribute_erase_of_attrME hab
    cases h1 : compileAttribute a with
    | none =>
      cases h2 : compileAttribute b with
      | none => simpa [List.filterMap_cons, h1, h2] using ih
      | some y =>
        rw [h1, h2, Option.map_none', Option.map_some'] at hh
        exact Option.noConfusion hh
    | some x =>
      cases h2 : compileAttribute b with
      | none =>
        rw [h1, h2, Option.map_none', Option.map_some'] at hh
        exact Option.noConfusion hh
      | some y =>
        rw [h1, h2, Option.map_some', Option.map_some'] at hh
        have hxy : eraseDA x = eraseDA y := by injection hh
        rw [List.map_cons, List.map_cons, h1, h2, List.filterMap_cons, List.filterMap_cons]
        dsimp only [id]
        rw [List.map_cons, List.map_cons, hxy, ih]

theorem find?_ref_erase : ∀ (l : List DeclaredAttribute),
    (l.map eraseDA).find? (fun a => match a with | .refAttr _ => true | _ => false)
      = (l.find? (fun a => match a with | .refAttr _ => true | _ => false)).map eraseDA := by
  intro l
  induction l with
  | nil => rfl
  | cons a l ih => cases a <;> simp [List.find?, eraseDA, ih]

theorem refTagOf_map_erase (l : List DeclaredAttribute) :
    refTagOf (l.map eraseDA) = refTagOf l := by
  unfold refTagOf
  rw [find?_ref_erase]
  cases l.find? (fun a => match a with | .refAttr _ => true | _ => false) with
  | none => rfl
  | some a => cases a <;> rfl

theorem eventsOf_map_erase (l : List DeclaredAttribute) :
    eventsOf (l.map eraseDA) = (eventsOf l).map eraseEv := by
  induction l with
  | nil => rfl
  | cons a l ih =>
    simp only [eventsOf] at ih ⊢
    rw [List.map_cons, List.filterMap_cons, List.filterMap_cons]
    cases a with
    | eventAttr e =>
      dsimp only [eraseDA]
      rw [List.map_cons, ih]
    | varAttr v => dsimp only [eraseDA]; exact ih
    | refAttr n => dsimp only [eraseDA]; exact ih
    | genAttr g => dsimp only [eraseDA]; exact ih

theorem variablesOf_map_erase (l : List DeclaredAttribute) :
    variablesOf (l.map eraseDA) = variablesOf l := by
  induction l with
  | nil => rfl
  | cons a l ih =>
    simp only [variablesOf] at ih ⊢
    rw [List.map_cons, List.filterMap_cons, List.filterMap_cons]
    cases a with
    | varAttr v =>
      dsimp only [eraseDA]
      rw [ih]
    | eventAttr e => dsimp only [eraseDA]; exact ih
    | refAttr n => dsimp only [eraseDA]; exact ih
    | genAttr g => dsimp only [eraseDA]; exact ih

theorem genericsOf_map_erase (l : List DeclaredAttribute) :
    genericsOf (l.map eraseDA) = genericsOf l := by
  induction l with
  | nil => rfl
  | cons a l ih =>
    simp only [genericsOf] at ih ⊢
    rw [List.map_cons, List.filterMap_cons, List.filterMap_cons]
    cases a with
    | genAttr g =>
      dsimp only [eraseDA]
      rw [ih]
    | eventAttr e => dsimp only [eraseDA]; exact ih
    | refAttr n => dsimp only [eraseDA]; exact ih
    | varAttr v => dsimp only [eraseDA]; exact ih

theorem hasSvgParent_congr {anc1 anc2 : List Node}
    (h : List.Forall₂ (fun p q => isSvgNode p = isSvgNode q) anc1 anc2) :
    hasSvgParent anc1 = hasSvgParent anc2 := by
  induction h with
  | nil => rfl
  | cons hpq htail ih => simp [hasSvgParent, hpq, ih]

mutual
theorem declareNode_erase_of_ME (decode : String → String) :
    ∀ {n1 n2 : Node} {anc1 anc2 : List Node}, NodeME n1 n2 →
      List.Forall₂ (fun p q => isSvgNode p = isSvgNode q) anc1 anc2 →
      eraseT (declareNode decode anc1 n1) = eraseT (declareNode decode anc2 n2)
  | _, _, _, _, .text rid s, _ => rfl
  | _, _, anc1, anc2, .tag rid t as1 as2 cs1 cs2 hattrs hcs, hanc => by
    have hdas := filterMapErase_congr hattrs
    have hsv : shouldRenderAsSvg (.tag rid t as1 cs1) anc1
        = shouldRenderAsSvg (.tag rid t as2 cs2) anc2 := by
      unfold shouldRenderAsSvg
      rw [hasSvgParent_congr hanc]
      rfl
    have hkids := declareForest_erase_of_ME decode hcs
      (List.Forall₂.cons (show isSvgNode (.tag rid t as1 cs1)
        = isSvgNode (.tag rid t as2 cs2) from rfl) hanc)
    simp only [declareNode, eraseT]
    rw [hsv, hkids,
      show refTagOf ((as1.map compileAttribute).filterMap id)
          = refTagOf ((as2.map compileAttribute).filterMap id) from by
        rw [← refTagOf_map_erase, hdas, refTagOf_map_erase],
      show (eventsOf ((as1.map compileAttribute).filterMap id)).map eraseEv
          = (eventsOf ((as2.map compileAttribute).filterMap id)).map eraseEv from by
        rw [← eventsOf_map_erase, hdas, eventsOf_map_erase],
      show variablesOf ((as1.map compileAttribute).filterMap id)
          = variablesOf ((as2.map compileAttribute).filterMap id) from by
        rw [← variablesOf_map_erase, hdas, variablesOf_map_erase],
      show genericsOf ((as1.map compileAttribute).filterMap id)
          = genericsOf ((as2.map compileAttribute).filterMap id) from by
        rw [← genericsOf_map_erase, hdas, genericsOf_map_erase]]

theorem declareForest_erase_of_ME (decode : String → String) :
    ∀ {f1 f2 : NodeForest} {anc1 anc2 : List Node}, ForestME f1 f2 →
      List.Forall₂ (fun p q => isSvgNode p = isSvgNode q) anc1 anc2 →
      eraseF (declareForest decode anc1 f1) = eraseF (declareForest decode anc2 f2)
  | _, _, _, _, .nil, _ => rfl
  | _, _, anc1, anc2, .cons hn hf, hanc => by
    simp only [declareForest, eraseF]
    rw [declareNode_erase_of_ME decode hn hanc, declareForest_erase_of_ME decode hf hanc]
end

mutual
theorem emitTree_erase (pn : Option String) :
    ∀ (d : DeclaredNode), emitTree pn (eraseT d) = emitTree pn d
  | .text rid c => rfl
  | .elem rid sv t rt evs vas ats cs => by
    show emitTree pn (.elem rid sv t rt (evs.map eraseEv) vas ats (eraseF cs)) = _
    rw [emitTree, emitTree]
    have h1 : emitNode pn (.elem rid sv t rt (evs.map eraseEv) vas ats (eraseF cs))
        = emitNode pn (.elem rid sv t rt evs vas ats cs) := rfl
    have h2 : nameof (.elem rid sv t rt (evs.map eraseEv) vas ats (eraseF cs))
        = nameof (.elem rid sv t rt evs vas ats cs) := rfl
    rw [h1, h2, emitForest_erase (some (nameof (.elem rid sv t rt evs vas ats cs))) cs]

theorem emitForest_erase (pn : Option String) :
    ∀ (f : DeclaredForest), emitForest pn (eraseF f) = emitForest pn f
  | .nil => rfl
  | .cons d ds => by
    show emitForest pn (.cons (eraseT d) (eraseF ds)) = _
    rw [emitForest, emitForest, emitTree_erase pn d, emitForest_erase pn ds]
end

mutual
theorem eventsTree_erase :
    ∀ (d : DeclaredNode), (eventsTree (eraseT d)).map eventLine
      = (eventsTree d).map eventLine
  | .text rid c => rfl
  | .elem rid sv t rt evs vas ats cs => by
    show ((eventsTree (.elem rid sv t rt (evs.map eraseEv) vas ats (eraseF cs))).map eventLine) = _
    rw [eventsTree, eventsTree, List.map_append, List.map_append]
    congr 1
    · simp only [List.map_map]
      rfl
    · exact eventsForest_erase cs

theorem eventsForest_erase :
    ∀ (f : DeclaredForest), (eventsForest (eraseF f)).map eventLine
      = (eventsForest f).map eventLine
  | .nil => rfl
  | .cons d ds => by
    show ((eventsForest (.cons (eraseT d) (eraseF ds))).map eventLine) = _
    rw [eventsForest, eventsForest, List.map_append, List.map_append,
      eventsTree_erase d, eventsForest_erase ds]
end

mutual
theorem spliceTree_erase : ∀ (d : DeclaredNode), spliceTree (eraseT d) = spliceTree d
  | .text rid c => rfl
  | .elem rid sv t rt evs vas ats cs => by
    show spliceTree (.elem rid sv t rt (evs.map eraseEv) vas ats (eraseF cs)) = _
    rw [spliceTree, spliceTree]
    exact spliceForest_erase cs

theorem spliceForest_erase : ∀ (f : DeclaredForest), spliceForest (eraseF f) = spliceForest f
  | .nil => rfl
  | .cons d ds => by
    show spliceForest (.cons (eraseT d) (eraseF ds)) = _
    rw [spliceForest, spliceForest, spliceTree_erase d, spliceForest_erase ds]
end

theorem prepare_erase : ∀ (f : DeclaredForest),
    prepareNodes (eraseF f) =
      ⟨eraseF (prepareNodes f).rootNodes, eraseF (prepareNodes f).templates,
       eraseF (prepareNodes f).scripts, eraseF (prepareNodes f).styles⟩
  | .nil => rfl
  | .cons d ds => by
    show prepareNodes (.cons (eraseT d) (eraseF ds)) = _
    rw [prepareNodes, prepareNodes, prepare_erase ds]
    cases d with
    | text rid c => rfl
    | elem rid sv t rt evs vas ats cs =>
      show prepareStep (.elem rid sv t rt (evs.map eraseEv) vas ats (eraseF cs)) _ = _
      simp only [prepareStep]
      split_ifs <;> simp [eraseF, eraseT]

theorem compileLines_eq_of_erase (decode : String → String) (ns1 ns2 : NodeForest)
    (h : eraseF (declareForest decode [] ns1) = eraseF (declareForest decode [] ns2)) :
    compileLines decode ns1 = compileLines decode ns2 := by
  have key : ∀ ns : NodeForest, compileLines decode ns =
      ["export function compile() \x7b"]
      ++ emitForest none (prepareNodes (eraseF (declareForest decode [] ns))).rootNodes
      ++ spliceForest (prepareNodes (eraseF (declareForest decode [] ns))).scripts
      ++ (eventsForest (prepareNodes (eraseF (declareForest decode [] ns))).rootNodes).map
          eventLine
      ++ ["\x7d"] := by
    intro ns
    simp only [compileLines]
    rw [prepare_erase (declareForest decode [] ns)]
    rw [emitForest_erase, spliceForest_erase, eventsForest_erase]
  rw [key ns1, key ns2, h]

/-- C10: the event-modifier list has no effect on the generated code — for
any two input documents identical except for the modifier segments of
`on:<event>={...}` attribute names, `compile` returns byte-identical output
(modifiers are parsed into the event directive but never consulted by the
emitted `addEventListener` statement). -/
theorem modifiers_invisible_in_output (decode : String → String)
    (ns1 ns2 : NodeForest) (h : ForestME ns1 ns2) :
    compile decode ns1 = compile decode ns2 := by
  have hE := declareForest_erase_of_ME decode h List.Forall₂.nil
  unfold compile
  rw [compileLines_eq_of_erase decode ns1 ns2 hE]

/-- Witness for C10: `<div on:click={h}></div>` versus
`<div on:click.once.passive={h}></div>` compile to the same output. -/
theorem modifiers_invisible_in_output_w :
    ForestME docC10a docC10b ∧
    compile (fun s => s) docC10a = compile (fun s => s) docC10b := by
  have hattr : attrME ⟨"on:click", "\x7bh\x7d"⟩ ⟨"on:click.once.passive", "\x7bh\x7d"⟩ :=
    Or.inr ⟨"click", "", ".once.passive", by decide, by decide, by decide,
      by decide, by decide, rfl, by decide⟩
  have hme : ForestME docC10a docC10b :=
    ForestME.cons
      (NodeME.tag 1 "div" _ _ _ _ (List.Forall₂.cons hattr List.Forall₂.nil) ForestME.nil)
      ForestME.nil
  exact ⟨hme, modifiers_invisible_in_output (fun s => s) docC10a docC10b hme⟩

end H2C
